import Mathlib

/-!
Verification of `cluster::data_migrations::worker`
(`src/v/cluster/data_migration_worker.cc`).

The worker is a per-shard manager of partition work.  It keeps a map from NTP
to `ntp_state` (leadership flag, running flag, the current `partition_work`,
a promise resolved on terminal completion, and a leadership-change
subscription id).  We embed the worker as an explicit state machine: each
operation is a pure function from a `Worker` state to a new state together
with a list of emitted `Effect`s (promise resolutions, subscription
registrations / unregistrations, spawned actions, gate closure).  Promises and
subscription ids are modelled as natural numbers drawn from per-worker
counters, faithfully reflecting that the C++ code allocates a fresh promise on
entry creation and on work replacement.
-/

namespace DataMigrations

/-- Migration lifecycle states (`data_migrations::state` from
`data_migration_types.h`), as listed in the state successor table. -/
inductive state
  | planned
  | preparing
  | prepared
  | executing
  | executed
  | cut_over
  | finishing
  | finished
  | cancelled
  | deleted
deriving DecidableEq

/-- Error codes (`cluster::errc`) relevant to `data_migration_worker.cc`.
`timeout` and `replication_error` stand in for the remaining retryable
codes of the full enum; the worker treats every code other than `success`
and `shutting_down` uniformly as retryable. -/
inductive errc
  | success
  | shutting_down
  | invalid_data_migration_state
  | partition_operation_failed
  | timeout
  | replication_error
deriving DecidableEq

/-- `model::ntp`: namespace, topic name, partition index. -/
structure ntp where
  ns : String
  topic : String
  partition : Int
deriving DecidableEq

/-- The variant tag of `partition_work_info`
(`inbound_partition_work_info` / `outbound_partition_work_info`).  The
payload fields are elided: `worker::do_work` ignores them
(`std::ignore = pwi`), so only the variant tag is observable here. -/
inductive partition_work_info
  | inbound
  | outbound
deriving DecidableEq

/-- `data_migrations::partition_work`: the migration id, the sought state and
the kind-specific info. -/
structure partition_work where
  migration_id : Nat
  sought_state : state
  info : partition_work_info
deriving DecidableEq

/-- `worker::ntp_state`: per-managed-NTP state.  `promise` and
`leadership_subscription` are ids into the effect trace. -/
structure ntp_state where
  is_leader : Bool
  is_running : Bool := false
  work : partition_work
  promise : Nat
  leadership_subscription : Nat
deriving DecidableEq

/-- Observable effects emitted by worker operations: resolving a promise with
an error code, registering / unregistering a leadership-change notification,
spawning a partition work action into the gate, closing the gate (awaiting
all spawned actions). -/
inductive Effect
  | resolvePromise (p : Nat) (ec : errc)
  | registerSub (n : ntp) (s : Nat)
  | unregisterSub (s : Nat)
  | spawnAction (n : ntp) (migration_id : Nat) (sought : state)
  | closeGate
deriving DecidableEq

/-- The worker state: `_managed_ntps` as an association list, plus fresh-id
counters for promises and subscriptions and the gate flag. -/
structure Worker where
  self : Nat
  managed_ntps : List (ntp × ntp_state)
  next_promise : Nat
  next_sub : Nat
  gate_closed : Bool

/-- Lookup in `_managed_ntps` (`_managed_ntps.find(ntp)`). -/
def lookupNtp : List (ntp × ntp_state) → ntp → Option ntp_state
  | [], _ => none
  | e :: rest, k => if e.1 = k then some e.2 else lookupNtp rest k

/-- Replace the state stored under key `k` (mutation through the iterator in
the C++ code). -/
def updateNtp : List (ntp × ntp_state) → ntp → ntp_state → List (ntp × ntp_state)
  | [], _, _ => []
  | e :: rest, k, v =>
    (if e.1 = k then (k, v) else e) :: updateNtp rest k v

/-- Remove the entry with key `k` (`_managed_ntps.erase(it)`); map keys are
unique, so removing every matching entry is the same removal. -/
def eraseNtp : List (ntp × ntp_state) → ntp → List (ntp × ntp_state)
  | [], _ => []
  | e :: rest, k =>
    if e.1 = k then eraseNtp rest k else e :: eraseNtp rest k

/-- `worker::spawn_work_if_leader`: if the stored leadership flag is set,
mark the entry running and spawn the action (an effect recording the NTP and
the work identity captured by the completion continuation); otherwise do
nothing.  The `vassert(!is_running)` precondition holds at every call site:
each caller has just set or observed `is_running = false`. -/
def spawn_work_if_leader (n : ntp) (st : ntp_state) : ntp_state × List Effect :=
  if st.is_leader then
    ({ st with is_running := true },
      [Effect.spawnAction n st.work.migration_id st.work.sought_state])
  else (st, [])

/-- The two effects of `worker::unmanage_ntp`: unregister the leadership
subscription, then resolve the promise with `result`. -/
def unmanage_effects (st : ntp_state) (result : errc) : List Effect :=
  [Effect.unregisterSub st.leadership_subscription,
   Effect.resolvePromise st.promise result]

/-- `worker::unmanage_ntp`: unregister the subscription, resolve the promise
with `result`, and erase the entry. -/
def unmanage_ntp (w : Worker) (n : ntp) (st : ntp_state) (result : errc) :
    Worker × List Effect :=
  ({ w with managed_ntps := eraseNtp w.managed_ntps n },
   unmanage_effects st result)

/-- `worker::perform_partition_work`.  If the NTP is not yet managed: query
current leadership from the leaders table, register a leadership-change
subscription, emplace a fresh entry, then `spawn_work_if_leader`; the future
of the fresh promise is returned (third component).  If an entry already
exists: resolve its promise with `invalid_data_migration_state`, allocate a
fresh promise, clear `is_running`, replace `work`, then
`spawn_work_if_leader`. -/
def perform_partition_work (w : Worker) (leaders : ntp → Option Nat) (n : ntp)
    (work : partition_work) : Worker × List Effect × Nat :=
  match lookupNtp w.managed_ntps n with
  | none =>
    let sub := w.next_sub
    let pid := w.next_promise
    let st0 : ntp_state :=
      { is_leader := decide (leaders n = some w.self), is_running := false,
        work := work, promise := pid, leadership_subscription := sub }
    let r := spawn_work_if_leader n st0
    ({ w with managed_ntps := w.managed_ntps ++ [(n, r.1)],
              next_promise := pid + 1, next_sub := sub + 1 },
     Effect.registerSub n sub :: r.2, pid)
  | some st =>
    let pid := w.next_promise
    let st0 : ntp_state :=
      { st with promise := pid, is_running := false, work := work }
    let r := spawn_work_if_leader n st0
    ({ w with managed_ntps := updateNtp w.managed_ntps n r.1,
              next_promise := pid + 1 },
     Effect.resolvePromise st.promise errc.invalid_data_migration_state :: r.2,
     pid)

/-- `worker::abort_partition_work`: if a managed entry exists whose stored
`(migration_id, sought_state)` both equal the arguments, unmanage it with
`invalid_data_migration_state`; otherwise a no-op. -/
def abort_partition_work (w : Worker) (n : ntp) (migration_id : Nat)
    (sought_state : state) : Worker × List Effect :=
  match lookupNtp w.managed_ntps n with
  | some st =>
    if st.work.migration_id = migration_id ∧
        st.work.sought_state = sought_state then
      unmanage_ntp w n st errc.invalid_data_migration_state
    else (w, [])
  | none => (w, [])

/-- `worker::handle_operation_result`: completion continuation of a spawned
action.  If the NTP is no longer managed or the stored work identity differs,
the completion is discarded.  Otherwise `is_running` is cleared; error codes
other than `success` and `shutting_down` are retryable and re-enter
`spawn_work_if_leader`; `success` and `shutting_down` unmanage the entry,
resolving its promise with the code. -/
def handle_operation_result (w : Worker) (n : ntp) (migration_id : Nat)
    (sought_state : state) (ec : errc) : Worker × List Effect :=
  match lookupNtp w.managed_ntps n with
  | none => (w, [])
  | some st =>
    if st.work.migration_id ≠ migration_id ∨
        st.work.sought_state ≠ sought_state then (w, [])
    else
      let st1 : ntp_state := { st with is_running := false }
      if ec ≠ errc.success ∧ ec ≠ errc.shutting_down then
        let r := spawn_work_if_leader n st1
        ({ w with managed_ntps := updateNtp w.managed_ntps n r.1 }, r.2)
      else
        unmanage_ntp w n st1 ec

/-- `worker::handle_leadership_update`: the leadership-change callback.  On an
unmanaged NTP or an unchanged flag it is a no-op; otherwise it updates
`is_leader` and, only when no action is running, re-enters
`spawn_work_if_leader`. -/
def handle_leadership_update (w : Worker) (n : ntp) (is_leader : Bool) :
    Worker × List Effect :=
  match lookupNtp w.managed_ntps n with
  | none => (w, [])
  | some st =>
    if st.is_leader = is_leader then (w, [])
    else
      let st1 : ntp_state := { st with is_leader := is_leader }
      if st1.is_running then
        ({ w with managed_ntps := updateNtp w.managed_ntps n st1 }, [])
      else
        let r := spawn_work_if_leader n st1
        ({ w with managed_ntps := updateNtp w.managed_ntps n r.1 }, r.2)

/-- Effects of the `while` loop in `worker::stop`: the last entry is
unmanaged with `shutting_down` first, then the next-to-last, and so on. -/
def stop_effects : List (ntp × ntp_state) → List Effect
  | [] => []
  | e :: rest => stop_effects rest ++ unmanage_effects e.2 errc.shutting_down

/-- `worker::stop`: unmanage every entry with `shutting_down` (last first),
then close the gate if it is not already closed, awaiting all spawned
actions. -/
def stop (w : Worker) : Worker × List Effect :=
  ({ w with managed_ntps := [], gate_closed := true },
   stop_effects w.managed_ntps ++
     (if w.gate_closed then [] else [Effect.closeGate]))

/-- Result of the inner `worker::do_work` dispatch: either the returned error
code, or a `vassert` failure aborting the process. -/
inductive work_result
  | ok (ec : errc)
  | vassert_failed
deriving DecidableEq

/-- `worker::do_work` on `inbound_partition_work_info`: asserts the sought
state is `prepared`, then performs the action (stubbed to `success`). -/
def do_work_inbound (sought_state : state) : work_result :=
  if sought_state = state.prepared then work_result.ok errc.success
  else work_result.vassert_failed

/-- `worker::do_work` on `outbound_partition_work_info`: switches on the
sought state; `prepared` and `executed` perform the action (stubbed to
`success`), every other state hits `vassert(false)`. -/
def do_work_outbound (sought_state : state) : work_result :=
  match sought_state with
  | state.prepared => work_result.ok errc.success
  | state.executed => work_result.ok errc.success
  | _ => work_result.vassert_failed

/-- The `std::visit` dispatch inside `worker::do_work(managed_ntp_cit)`:
choose the overload by the info variant. -/
def do_work_dispatch (info : partition_work_info) (sought_state : state) :
    work_result :=
  match info with
  | partition_work_info.inbound => do_work_inbound sought_state
  | partition_work_info.outbound => do_work_outbound sought_state

/-- Outcome of awaiting the dispatched action inside the `try` block of
`worker::do_work(managed_ntp_cit)`: it either completes with an error code or
raises an exception. -/
inductive action_outcome
  | completes (ec : errc)
  | raises

/-- The `try`/`catch` of `worker::do_work(managed_ntp_cit)`: a completed
action's code is returned as is; any exception is caught and translated to
`partition_operation_failed`. -/
def do_work_catch : action_outcome → errc
  | action_outcome.completes ec => ec
  | action_outcome.raises => errc.partition_operation_failed

/-- External events driving the worker, for trace-level invariants. -/
inductive Op
  | perform (leaders : ntp → Option Nat) (n : ntp) (work : partition_work)
  | abort (n : ntp) (migration_id : Nat) (sought_state : state)
  | opResult (n : ntp) (migration_id : Nat) (sought_state : state) (ec : errc)
  | leadership (n : ntp) (is_leader : Bool)
  | stop

/-- One step of the worker: dispatch an event to the corresponding
operation. -/
def step (w : Worker) : Op → Worker × List Effect
  | Op.perform leaders n work =>
    let r := perform_partition_work w leaders n work
    (r.1, r.2.1)
  | Op.abort n mid s => abort_partition_work w n mid s
  | Op.opResult n mid s ec => handle_operation_result w n mid s ec
  | Op.leadership n l => handle_leadership_update w n l
  | Op.stop => stop w

/-- Run a sequence of events, accumulating the effect trace. -/
def run (w : Worker) : List Op → Worker × List Effect
  | [] => (w, [])
  | op :: ops =>
    let r := step w op
    let r2 := run r.1 ops
    (r2.1, r.2 ++ r2.2)

/-- A freshly constructed worker: no managed NTPs, counters at zero, gate
open. -/
def initial_worker (self : Nat) : Worker :=
  { self := self, managed_ntps := [], next_promise := 0, next_sub := 0,
    gate_closed := false }

/-- Whether an effect resolves promise `p`. -/
def is_resolve_of (p : Nat) : Effect → Bool
  | Effect.resolvePromise q _ => q = p
  | _ => false

/-- Number of resolutions of promise `p` in a trace. -/
def count_resolves (tr : List Effect) (p : Nat) : Nat :=
  tr.countP (is_resolve_of p)

/-- Whether an effect registers subscription `s`. -/
def is_register_of (s : Nat) : Effect → Bool
  | Effect.registerSub _ t => t = s
  | _ => false

/-- Number of registrations of subscription `s` in a trace. -/
def count_registers (tr : List Effect) (s : Nat) : Nat :=
  tr.countP (is_register_of s)

/-- Whether an effect unregisters subscription `s`. -/
def is_unregister_of (s : Nat) : Effect → Bool
  | Effect.unregisterSub t => t = s
  | _ => false

/-- Number of unregistrations of subscription `s` in a trace. -/
def count_unregisters (tr : List Effect) (s : Nat) : Nat :=
  tr.countP (is_unregister_of s)

/-! Association-list lemmas about `lookupNtp`, `updateNtp`, `eraseNtp`. -/

theorem lookupNtp_forall_of_none {m : List (ntp × ntp_state)} {k : ntp}
    (h : lookupNtp m k = none) : ∀ e ∈ m, e.1 ≠ k := by
  induction m with
  | nil => intro e he; cases he
  | cons a rest ih =>
    rw [lookupNtp] at h
    by_cases hk : a.1 = k
    · rw [if_pos hk] at h; cases h
    · rw [if_neg hk] at h
      intro e he
      rcases List.mem_cons.mp he with he | he
      · rw [he]; exact hk
      · exact ih h e he

theorem lookupNtp_none_of_forall {m : List (ntp × ntp_state)} {k : ntp}
    (h : ∀ e ∈ m, e.1 ≠ k) : lookupNtp m k = none := by
  induction m with
  | nil => rfl
  | cons a rest ih =>
    rw [lookupNtp, if_neg (h a (List.mem_cons_self a rest))]
    exact ih fun e he => h e (List.mem_cons_of_mem a he)

theorem lookupNtp_some_mem {m : List (ntp × ntp_state)} {k : ntp}
    {st : ntp_state} (h : lookupNtp m k = some st) : (k, st) ∈ m := by
  induction m with
  | nil => cases h
  | cons a rest ih =>
    rw [lookupNtp] at h
    by_cases hk : a.1 = k
    · rw [if_pos hk] at h
      injection h with h2
      have ha : a = (k, st) := by
        cases a with
        | mk a1 a2 => simp only at hk h2; rw [hk, h2]
      rw [← ha]
      exact List.mem_cons_self a rest
    · rw [if_neg hk] at h
      exact List.mem_cons_of_mem a (ih h)

theorem mem_eraseNtp {m : List (ntp × ntp_state)} {k : ntp}
    {e : ntp × ntp_state} : e ∈ eraseNtp m k ↔ e ∈ m ∧ e.1 ≠ k := by
  induction m with
  | nil => simp [eraseNtp]
  | cons a rest ih =>
    rw [eraseNtp]
    by_cases hk : a.1 = k
    · rw [if_pos hk, ih]
      constructor
      · rintro ⟨he, hne⟩
        exact ⟨List.mem_cons_of_mem a he, hne⟩
      · rintro ⟨he, hne⟩
        rcases List.mem_cons.mp he with he | he
        · exact absurd (he ▸ hk) hne
        · exact ⟨he, hne⟩
    · rw [if_neg hk]
      constructor
      · intro he
        rcases List.mem_cons.mp he with he | he
        · exact ⟨he ▸ List.mem_cons_self a rest, he ▸ hk⟩
        · rcases ih.mp he with ⟨hm, hne⟩
          exact ⟨List.mem_cons_of_mem a hm, hne⟩
      · rintro ⟨he, hne⟩
        rcases List.mem_cons.mp he with he | he
        · exact he ▸ List.mem_cons_self a _
        · exact List.mem_cons_of_mem a (ih.mpr ⟨he, hne⟩)

theorem lookupNtp_eraseNtp_self (m : List (ntp × ntp_state)) (k : ntp) :
    lookupNtp (eraseNtp m k) k = none :=
  lookupNtp_none_of_forall fun e he => (mem_eraseNtp.mp he).2

theorem lookupNtp_updateNtp_self {m : List (ntp × ntp_state)} {k : ntp}
    {st : ntp_state} (h : lookupNtp m k = some st) (v : ntp_state) :
    lookupNtp (updateNtp m k v) k = some v := by
  induction m with
  | nil => cases h
  | cons a rest ih =>
    rw [lookupNtp] at h
    rw [updateNtp]
    by_cases hk : a.1 = k
    · rw [if_pos hk, lookupNtp, if_pos rfl]
    · rw [if_neg hk, lookupNtp, if_neg hk]
      rw [if_neg hk] at h
      exact ih h

theorem of_mem_updateNtp {m : List (ntp × ntp_state)} {k : ntp}
    {v e : _} (h : e ∈ updateNtp m k v) : (e ∈ m ∧ e.1 ≠ k) ∨ e = (k, v) := by
  induction m with
  | nil => cases h
  | cons a rest ih =>
    rw [updateNtp] at h
    rcases List.mem_cons.mp h with h | h
    · by_cases hk : a.1 = k
      · right; rw [if_pos hk] at h; exact h
      · left; rw [if_neg hk] at h
        exact ⟨h ▸ List.mem_cons_self a rest, h ▸ hk⟩
    · rcases ih h with ⟨hm, hne⟩ | he
      · exact Or.inl ⟨List.mem_cons_of_mem a hm, hne⟩
      · exact Or.inr he

theorem mem_updateNtp_of_ne {m : List (ntp × ntp_state)} {k : ntp}
    {v e : _} (he : e ∈ m) (hne : e.1 ≠ k) : e ∈ updateNtp m k v := by
  induction m with
  | nil => cases he
  | cons a rest ih =>
    rw [updateNtp]
    rcases List.mem_cons.mp he with h | h
    · subst h
      rw [if_neg hne]
      exact List.mem_cons_self e _
    · exact List.mem_cons_of_mem _ (ih h)

theorem mem_updateNtp_self {m : List (ntp × ntp_state)} {k : ntp}
    {st : ntp_state} (h : lookupNtp m k = some st) (v : ntp_state) :
    (k, v) ∈ updateNtp m k v := by
  induction m with
  | nil => cases h
  | cons a rest ih =>
    rw [lookupNtp] at h
    rw [updateNtp]
    by_cases hk : a.1 = k
    · rw [if_pos hk]
      exact List.mem_cons_self _ _
    · rw [if_neg hk]
      rw [if_neg hk] at h
      exact List.mem_cons_of_mem _ (ih h)

theorem lookupNtp_append_of_none {m1 : List (ntp × ntp_state)} {k : ntp}
    (h : lookupNtp m1 k = none) (m2 : List (ntp × ntp_state)) :
    lookupNtp (m1 ++ m2) k = lookupNtp m2 k := by
  induction m1 with
  | nil => rfl
  | cons a rest ih =>
    rw [lookupNtp] at h
    by_cases hk : a.1 = k
    · rw [if_pos hk] at h; cases h
    · rw [if_neg hk] at h
      rw [List.cons_append, lookupNtp, if_neg hk]
      exact ih h

/-! Branch equations for `handle_operation_result` on a matching entry. -/

theorem handle_operation_result_retry_eq (w : Worker) (n : ntp)
    (st : ntp_state) (ec : errc) (h : lookupNtp w.managed_ntps n = some st)
    (hec : ec ≠ errc.success ∧ ec ≠ errc.shutting_down) :
    handle_operation_result w n st.work.migration_id st.work.sought_state ec =
      ({ w with managed_ntps :=
          (updateNtp w.managed_ntps n { st with is_running := st.is_leader }) },
       if st.is_leader then
         [Effect.spawnAction n st.work.migration_id st.work.sought_state]
       else []) := by
  simp only [handle_operation_result, h]
  rw [if_neg (by simp), if_pos hec]
  cases hl : st.is_leader <;> simp [spawn_work_if_leader, hl]

theorem handle_operation_result_terminal_eq (w : Worker) (n : ntp)
    (st : ntp_state) (ec : errc) (h : lookupNtp w.managed_ntps n = some st)
    (hec : ec = errc.success ∨ ec = errc.shutting_down) :
    handle_operation_result w n st.work.migration_id st.work.sought_state ec =
      ({ w with managed_ntps := eraseNtp w.managed_ntps n },
       [Effect.unregisterSub st.leadership_subscription,
        Effect.resolvePromise st.promise ec]) := by
  simp only [handle_operation_result, h]
  rw [if_neg (by simp), if_neg (by rcases hec with h1 | h1 <;> simp [h1])]
  simp [unmanage_ntp, unmanage_effects]

/-! ## C2: legal `(kind, sought_state)` combinations -/

/-- C2: the dispatch of `worker::do_work` hits a failing assertion exactly
on the combinations outside {(inbound, prepared), (outbound, prepared),
(outbound, executed)}: `do_work` on inbound work asserts the sought state is
`prepared`, `do_work` on outbound work asserts it is `prepared` or
`executed`, and every other combination fails the process loudly. -/
theorem do_work_dispatch_assert_iff (info : partition_work_info)
    (sought_state : state) :
    do_work_dispatch info sought_state = work_result.vassert_failed ↔
      ¬((info = partition_work_info.inbound ∧ sought_state = state.prepared) ∨
        (info = partition_work_info.outbound ∧ sought_state = state.prepared) ∨
        (info = partition_work_info.outbound ∧
          sought_state = state.executed)) := by
  cases info <;> cases sought_state <;> decide

/-! ## C9: stale completions are discarded -/

/-- C9: a completion result whose NTP is no longer managed, or whose
`(migration_id, sought_state)` differ from the managed entry's work, leaves
the worker completely unchanged and emits no effect (no promise resolved). -/
theorem handle_operation_result_stale_noop (w : Worker) (n : ntp)
    (migration_id : Nat) (sought_state : state) (ec : errc)
    (h : lookupNtp w.managed_ntps n = none ∨
      ∃ st, lookupNtp w.managed_ntps n = some st ∧
        (st.work.migration_id ≠ migration_id ∨
          st.work.sought_state ≠ sought_state)) :
    handle_operation_result w n migration_id sought_state ec = (w, []) := by
  rcases h with h | ⟨st, hst, hmis⟩
  · rw [handle_operation_result, h]
  · rw [handle_operation_result, hst]
    simp only [if_pos hmis]

/-- Witness for C9: a concrete stale completion (unmanaged NTP) is a no-op. -/
theorem handle_operation_result_stale_noop_witness :
    handle_operation_result (initial_worker 0) ⟨"kafka", "t", 0⟩ 7
      state.prepared errc.timeout = (initial_worker 0, []) :=
  handle_operation_result_stale_noop (initial_worker 0) ⟨"kafka", "t", 0⟩ 7
    state.prepared errc.timeout (Or.inl rfl)

/-! ## C8: exceptions become `partition_operation_failed`, a retryable code -/

/-- C8: an uncaught exception in a worker action is translated by the catch
block of `do_work` to `partition_operation_failed`, and the completion
handler treats that code as retryable: for a matching managed entry it keeps
the entry (same work, promise and subscription, `is_running` cleared and
re-set exactly when the action is re-spawned), re-spawns the action if and
only if the stored leadership flag is true, and resolves no promise. -/
theorem do_work_exception_retryable (w : Worker) (n : ntp) (st : ntp_state)
    (h : lookupNtp w.managed_ntps n = some st) :
    do_work_catch action_outcome.raises = errc.partition_operation_failed ∧
    lookupNtp (handle_operation_result w n st.work.migration_id
        st.work.sought_state (do_work_catch action_outcome.raises)).1.managed_ntps
        n = some { st with is_running := st.is_leader } ∧
    ((Effect.spawnAction n st.work.migration_id st.work.sought_state ∈
        (handle_operation_result w n st.work.migration_id st.work.sought_state
          (do_work_catch action_outcome.raises)).2) ↔ st.is_leader = true) ∧
    (∀ p ec, Effect.resolvePromise p ec ∉
        (handle_operation_result w n st.work.migration_id st.work.sought_state
          (do_work_catch action_outcome.raises)).2) := by
  have hr := handle_operation_result_retry_eq w n st
    errc.partition_operation_failed h (by exact ⟨by decide, by decide⟩)
  refine ⟨rfl, ?_, ?_, ?_⟩
  · simp only [do_work_catch, hr]
    exact lookupNtp_updateNtp_self h _
  · simp only [do_work_catch, hr]
    cases st.is_leader <;> simp
  · simp only [do_work_catch, hr]
    cases st.is_leader <;> simp

/-! Branch equations for `perform_partition_work`. -/

theorem perform_partition_work_new_eq (w : Worker) (leaders : ntp → Option Nat)
    (n : ntp) (work : partition_work) (h : lookupNtp w.managed_ntps n = none) :
    perform_partition_work w leaders n work =
      ({ w with
          managed_ntps := w.managed_ntps ++
            [(n, ({ is_leader := decide (leaders n = some w.self),
                    is_running := decide (leaders n = some w.self),
                    work := work, promise := w.next_promise,
                    leadership_subscription := w.next_sub } : ntp_state))],
          next_promise := w.next_promise + 1, next_sub := w.next_sub + 1 },
       Effect.registerSub n w.next_sub ::
         (if leaders n = some w.self then
           [Effect.spawnAction n work.migration_id work.sought_state]
          else []),
       w.next_promise) := by
  simp only [perform_partition_work, h]
  by_cases hl : leaders n = some w.self <;>
    simp [spawn_work_if_leader, hl]

theorem perform_partition_work_existing_eq (w : Worker)
    (leaders : ntp → Option Nat) (n : ntp) (work : partition_work)
    (st : ntp_state) (h : lookupNtp w.managed_ntps n = some st) :
    perform_partition_work w leaders n work =
      ({ w with
          managed_ntps :=
            (updateNtp w.managed_ntps n
              ({ is_leader := st.is_leader, is_running := st.is_leader,
                 work := work, promise := w.next_promise,
                 leadership_subscription :=
                   st.leadership_subscription } : ntp_state)),
          next_promise := w.next_promise + 1 },
       Effect.resolvePromise st.promise errc.invalid_data_migration_state ::
         (if st.is_leader then
           [Effect.spawnAction n work.migration_id work.sought_state]
          else []),
       w.next_promise) := by
  simp only [perform_partition_work, h]
  cases hl : st.is_leader <;> simp [spawn_work_if_leader, hl]

/-! ## C1: completion handling on a matching managed entry -/

/-- C1: when a worker action completes with code `ec` for a still-managed
entry whose work identity matches: if `ec` is `success` or `shutting_down`
the NTP is unmanaged and its promise resolved with `ec`; for any other code
the entry is kept (same work, promise and subscription), `is_running` is
cleared (re-set exactly when the action is re-spawned), the action is
re-spawned in the same step — no backoff and no retry counter — if and only
if the stored `is_leader` flag is still true, and no promise is resolved. -/
theorem handle_operation_result_spec (w : Worker) (n : ntp) (st : ntp_state)
    (ec : errc) (h : lookupNtp w.managed_ntps n = some st) :
    ((ec = errc.success ∨ ec = errc.shutting_down) →
      lookupNtp (handle_operation_result w n st.work.migration_id
          st.work.sought_state ec).1.managed_ntps n = none ∧
      Effect.resolvePromise st.promise ec ∈
        (handle_operation_result w n st.work.migration_id
          st.work.sought_state ec).2) ∧
    (ec ≠ errc.success → ec ≠ errc.shutting_down →
      lookupNtp (handle_operation_result w n st.work.migration_id
          st.work.sought_state ec).1.managed_ntps n =
        some { st with is_running := st.is_leader } ∧
      ((Effect.spawnAction n st.work.migration_id st.work.sought_state ∈
          (handle_operation_result w n st.work.migration_id
            st.work.sought_state ec).2) ↔ st.is_leader = true) ∧
      (∀ p e2, Effect.resolvePromise p e2 ∉
          (handle_operation_result w n st.work.migration_id
            st.work.sought_state ec).2)) := by
  constructor
  · intro hec
    rw [handle_operation_result_terminal_eq w n st ec h hec]
    exact ⟨lookupNtp_eraseNtp_self _ _, by simp⟩
  · intro h1 h2
    rw [handle_operation_result_retry_eq w n st ec h ⟨h1, h2⟩]
    refine ⟨lookupNtp_updateNtp_self h _, ?_, ?_⟩
    · cases st.is_leader <;> simp
    · cases st.is_leader <;> simp

/-! ## C3: `perform_partition_work` on an unmanaged NTP -/

/-- C3: a `perform` call for an NTP with no managed entry registers a
leadership-change subscription for that NTP, records current leadership as
queried from the leaders table, inserts a new entry holding the work and the
fresh promise, spawns the action if and only if the local replica is the
leader, and returns the future of the fresh promise, which this call leaves
unresolved (it is resolved only when the entry terminates or its work is
replaced). -/
theorem perform_partition_work_new_ntp_spec (w : Worker)
    (leaders : ntp → Option Nat) (n : ntp) (work : partition_work)
    (h : lookupNtp w.managed_ntps n = none) :
    Effect.registerSub n w.next_sub ∈
      (perform_partition_work w leaders n work).2.1 ∧
    (perform_partition_work w leaders n work).2.2 = w.next_promise ∧
    lookupNtp (perform_partition_work w leaders n work).1.managed_ntps n =
      some { is_leader := decide (leaders n = some w.self),
             is_running := decide (leaders n = some w.self),
             work := work, promise := w.next_promise,
             leadership_subscription := w.next_sub } ∧
    ((Effect.spawnAction n work.migration_id work.sought_state ∈
        (perform_partition_work w leaders n work).2.1) ↔
      leaders n = some w.self) ∧
    (∀ p ec, Effect.resolvePromise p ec ∉
        (perform_partition_work w leaders n work).2.1) := by
  rw [perform_partition_work_new_eq w leaders n work h]
  refine ⟨List.mem_cons_self _ _, rfl, ?_, ?_, ?_⟩
  · rw [lookupNtp_append_of_none h]
    simp [lookupNtp]
  · by_cases hl : leaders n = some w.self <;> simp [hl]
  · intro p ec
    by_cases hl : leaders n = some w.self <;> simp [hl]

/-! ## C4: `perform_partition_work` on an already-managed NTP -/

/-- C4: a second `perform` call for an already-managed NTP resolves the
existing entry's promise with `invalid_data_migration_state`, replaces the
entry's work with the new work (keeping the subscription, allocating a fresh
promise), and decides whether to spawn the new action from the entry's
current leadership flag: the action is spawned if and only if `is_leader`
is true. -/
theorem perform_partition_work_existing_spec (w : Worker)
    (leaders : ntp → Option Nat) (n : ntp) (work : partition_work)
    (st : ntp_state) (h : lookupNtp w.managed_ntps n = some st) :
    Effect.resolvePromise st.promise errc.invalid_data_migration_state ∈
      (perform_partition_work w leaders n work).2.1 ∧
    lookupNtp (perform_partition_work w leaders n work).1.managed_ntps n =
      some { is_leader := st.is_leader, is_running := st.is_leader,
             work := work, promise := w.next_promise,
             leadership_subscription := st.leadership_subscription } ∧
    (perform_partition_work w leaders n work).2.2 = w.next_promise ∧
    ((Effect.spawnAction n work.migration_id work.sought_state ∈
        (perform_partition_work w leaders n work).2.1) ↔
      st.is_leader = true) := by
  rw [perform_partition_work_existing_eq w leaders n work st h]
  refine ⟨List.mem_cons_self _ _, ?_, rfl, ?_⟩
  · exact lookupNtp_updateNtp_self h _
  · cases hl : st.is_leader <;> simp [hl]

/-! ## C5: `abort_partition_work` -/

/-- C5: aborting with a matching `(migration_id, sought_state)` removes the
entry (other entries are untouched) and emits exactly the unmanage effects,
resolving the promise with `invalid_data_migration_state`; with no managed
entry or a mismatching identity the worker state and effect list are
completely unchanged. -/
theorem abort_partition_work_spec (w : Worker) (n : ntp) (migration_id : Nat)
    (sought_state : state) :
    (∀ st, lookupNtp w.managed_ntps n = some st →
      st.work.migration_id = migration_id →
      st.work.sought_state = sought_state →
      lookupNtp (abort_partition_work w n migration_id
          sought_state).1.managed_ntps n = none ∧
      (∀ e ∈ w.managed_ntps, e.1 ≠ n →
        e ∈ (abort_partition_work w n migration_id
          sought_state).1.managed_ntps) ∧
      (abort_partition_work w n migration_id sought_state).2 =
        [Effect.unregisterSub st.leadership_subscription,
         Effect.resolvePromise st.promise
           errc.invalid_data_migration_state]) ∧
    ((lookupNtp w.managed_ntps n = none ∨
      ∃ st, lookupNtp w.managed_ntps n = some st ∧
        (st.work.migration_id ≠ migration_id ∨
          st.work.sought_state ≠ sought_state)) →
      abort_partition_work w n migration_id sought_state = (w, [])) := by
  constructor
  · intro st hst hm hs
    have heq : abort_partition_work w n migration_id sought_state =
        ({ w with managed_ntps := eraseNtp w.managed_ntps n },
         [Effect.unregisterSub st.leadership_subscription,
          Effect.resolvePromise st.promise
            errc.invalid_data_migration_state]) := by
      simp only [abort_partition_work, hst]
      rw [if_pos ⟨hm, hs⟩]
      simp [unmanage_ntp, unmanage_effects]
    rw [heq]
    exact ⟨lookupNtp_eraseNtp_self _ _,
      fun e he hne => mem_eraseNtp.mpr ⟨he, hne⟩, rfl⟩
  · rintro (h | ⟨st, hst, hmis⟩)
    · simp [abort_partition_work, h]
    · have hcond : ¬(st.work.migration_id = migration_id ∧
          st.work.sought_state = sought_state) := by
        rintro ⟨a, b⟩
        rcases hmis with h1 | h1
        · exact h1 a
        · exact h1 b
      simp only [abort_partition_work, hst]
      rw [if_neg hcond]

/-! ## C6: `stop` -/

theorem mem_stop_effects {m : List (ntp × ntp_state)} {e : ntp × ntp_state}
    (he : e ∈ m) :
    Effect.resolvePromise e.2.promise errc.shutting_down ∈ stop_effects m ∧
    Effect.unregisterSub e.2.leadership_subscription ∈ stop_effects m := by
  induction m with
  | nil => cases he
  | cons a rest ih =>
    rw [stop_effects]
    rcases List.mem_cons.mp he with he | he
    · subst he
      constructor <;>
        exact List.mem_append_right _ (by simp [unmanage_effects])
    · have h := ih he
      exact ⟨List.mem_append_left _ h.1, List.mem_append_left _ h.2⟩

/-- C6: `stop` unmanages every entry: afterwards the managed-NTP map is
empty, every formerly managed entry's promise has been resolved with
`shutting_down` and its subscription unregistered, and the gate is closed
(all spawned actions awaited), emitting the close if the gate was open. -/
theorem stop_spec (w : Worker) :
    (stop w).1.managed_ntps = [] ∧
    (stop w).1.gate_closed = true ∧
    (∀ e ∈ w.managed_ntps,
      Effect.resolvePromise e.2.promise errc.shutting_down ∈ (stop w).2 ∧
      Effect.unregisterSub e.2.leadership_subscription ∈ (stop w).2) ∧
    (w.gate_closed = false → Effect.closeGate ∈ (stop w).2) := by
  refine ⟨rfl, rfl, ?_, ?_⟩
  · intro e he
    have h := mem_stop_effects he
    exact ⟨List.mem_append_left _ h.1, List.mem_append_left _ h.2⟩
  · intro hg
    simp [stop, hg]

/-! ## C7: leadership-change callback -/

theorem handle_leadership_update_running_eq (w : Worker) (n : ntp)
    (st : ntp_state) (b : Bool) (h : lookupNtp w.managed_ntps n = some st)
    (hne : st.is_leader ≠ b) (hr : st.is_running = true) :
    handle_leadership_update w n b =
      ({ w with managed_ntps :=
          (updateNtp w.managed_ntps n { st with is_leader := b }) }, []) := by
  simp only [handle_leadership_update, h]
  rw [if_neg hne]
  simp [hr]

theorem handle_leadership_update_idle_eq (w : Worker) (n : ntp)
    (st : ntp_state) (b : Bool) (h : lookupNtp w.managed_ntps n = some st)
    (hne : st.is_leader ≠ b) (hr : st.is_running = false) :
    handle_leadership_update w n b =
      ({ w with managed_ntps :=
          (updateNtp w.managed_ntps n
            { st with is_leader := b, is_running := b }) },
       if b then
         [Effect.spawnAction n st.work.migration_id st.work.sought_state]
       else []) := by
  simp only [handle_leadership_update, h]
  rw [if_neg hne]
  cases b <;> simp [spawn_work_if_leader, hr]

/-- C7: the leadership callback on a managed NTP only updates `is_leader`:
an unchanged flag is a no-op; on a change while an action is running nothing
is spawned or cancelled (no effects) and only the flag changes, so the
in-flight action completes and later retry decisions read the new flag; on a
change while idle the action is spawned exactly when the node became
leader. -/
theorem handle_leadership_update_spec (w : Worker) (n : ntp) (st : ntp_state)
    (b : Bool) (h : lookupNtp w.managed_ntps n = some st) :
    (st.is_leader = b → handle_leadership_update w n b = (w, [])) ∧
    (st.is_leader ≠ b → st.is_running = true →
      (handle_leadership_update w n b).2 = [] ∧
      lookupNtp (handle_leadership_update w n b).1.managed_ntps n =
        some { st with is_leader := b }) ∧
    (st.is_leader ≠ b → st.is_running = false →
      lookupNtp (handle_leadership_update w n b).1.managed_ntps n =
        some { st with is_leader := b, is_running := b } ∧
      ((Effect.spawnAction n st.work.migration_id st.work.sought_state ∈
          (handle_leadership_update w n b).2) ↔ b = true)) := by
  refine ⟨?_, ?_, ?_⟩
  · intro he
    simp [handle_leadership_update, h, he]
  · intro hne hr
    rw [handle_leadership_update_running_eq w n st b h hne hr]
    exact ⟨rfl, lookupNtp_updateNtp_self h _⟩
  · intro hne hr
    rw [handle_leadership_update_idle_eq w n st b h hne hr]
    refine ⟨lookupNtp_updateNtp_self h _, ?_⟩
    cases b <;> simp

/-! ## Concrete sample values shared by the witnesses -/

/-- A sample NTP. -/
def ntp0 : ntp := ⟨"kafka", "topic-a", 0⟩

/-- A sample inbound work item towards `prepared`. -/
def work0 : partition_work := ⟨7, state.prepared, partition_work_info.inbound⟩

/-- A sample outbound work item towards `executed`. -/
def work1 : partition_work := ⟨9, state.executed, partition_work_info.outbound⟩

/-- A leaders-table view in which node 0 leads every partition. -/
def leaders0 : ntp → Option Nat := fun _ => some 0

/-- A worker managing `ntp0`, built by one `perform_partition_work` call on
a fresh worker whose node is the leader: the entry is
`⟨true, true, work0, 0, 0⟩`. -/
def worker1 : Worker :=
  (perform_partition_work (initial_worker 0) leaders0 ntp0 work0).1

/-- Witness for C3: performing work on a fresh worker registers the first
subscription. -/
theorem perform_partition_work_new_ntp_spec_witness :
    Effect.registerSub ntp0 0 ∈
      (perform_partition_work (initial_worker 0) leaders0 ntp0 work0).2.1 :=
  (perform_partition_work_new_ntp_spec (initial_worker 0) leaders0 ntp0 work0
    rfl).1

/-- Witness for C1: a `success` completion on `worker1` unmanages `ntp0`. -/
theorem handle_operation_result_spec_witness :
    lookupNtp (handle_operation_result worker1 ntp0 7 state.prepared
      errc.success).1.managed_ntps ntp0 = none :=
  ((handle_operation_result_spec worker1 ntp0 ⟨true, true, work0, 0, 0⟩
      errc.success (by decide)).1 (Or.inl rfl)).1

/-- Witness for C4: replacing `ntp0`'s work on `worker1` resolves the old
promise with `invalid_data_migration_state`. -/
theorem perform_partition_work_existing_spec_witness :
    Effect.resolvePromise 0 errc.invalid_data_migration_state ∈
      (perform_partition_work worker1 leaders0 ntp0 work1).2.1 :=
  (perform_partition_work_existing_spec worker1 leaders0 ntp0 work1
    ⟨true, true, work0, 0, 0⟩ (by decide)).1

/-- Witness for C7: losing leadership mid-action on `worker1` emits no
effect and only flips the flag. -/
theorem handle_leadership_update_spec_witness :
    (handle_leadership_update worker1 ntp0 false).2 = [] ∧
    lookupNtp (handle_leadership_update worker1 ntp0
      false).1.managed_ntps ntp0 = some ⟨false, true, work0, 0, 0⟩ :=
  (handle_leadership_update_spec worker1 ntp0 ⟨true, true, work0, 0, 0⟩
    false (by decide)).2.1 (by decide) rfl

/-- Witness for C8: a raised exception on `worker1`'s action keeps the entry
running under the retry. -/
theorem do_work_exception_retryable_witness :
    lookupNtp (handle_operation_result worker1 ntp0 7 state.prepared
      (do_work_catch action_outcome.raises)).1.managed_ntps ntp0 =
      some ⟨true, true, work0, 0, 0⟩ :=
  (do_work_exception_retryable worker1 ntp0 ⟨true, true, work0, 0, 0⟩
    (by decide)).2.1

/-! ## C10: trace-level invariant on promises and subscriptions

Further association-list lemmas used by the invariant proof. -/

theorem lookupNtp_updateNtp_ne {m : List (ntp × ntp_state)} {k k2 : ntp}
    (hne : k2 ≠ k) (v : ntp_state) :
    lookupNtp (updateNtp m k v) k2 = lookupNtp m k2 := by
  induction m with
  | nil => rfl
  | cons a rest ih =>
    rw [updateNtp, lookupNtp, lookupNtp]
    by_cases hk : a.1 = k
    · rw [if_pos hk]
      have : ¬(k, v).1 = k2 := fun hc => hne (hc ▸ rfl)
      rw [if_neg this, if_neg (fun hc => this (by rw [← hc, hk])), ih]
    · rw [if_neg hk]
      by_cases h2 : a.1 = k2
      · rw [if_pos h2, if_pos h2]
      · rw [if_neg h2, if_neg h2, ih]

theorem lookupNtp_eraseNtp_ne {m : List (ntp × ntp_state)} {k k2 : ntp}
    (hne : k2 ≠ k) : lookupNtp (eraseNtp m k) k2 = lookupNtp m k2 := by
  induction m with
  | nil => rfl
  | cons a rest ih =>
    rw [eraseNtp, lookupNtp]
    by_cases hk : a.1 = k
    · rw [if_pos hk, ih, if_neg (fun hc => hne (by rw [← hc, hk]))]
    · rw [if_neg hk, lookupNtp]
      by_cases h2 : a.1 = k2
      · rw [if_pos h2, if_pos h2]
      · rw [if_neg h2, if_neg h2, ih]

theorem lookupNtp_append_some {m l : List (ntp × ntp_state)} {k : ntp}
    {v : ntp_state} (h : lookupNtp m k = some v) :
    lookupNtp (m ++ l) k = some v := by
  induction m with
  | nil => cases h
  | cons a rest ih =>
    rw [lookupNtp] at h
    rw [List.cons_append, lookupNtp]
    by_cases hk : a.1 = k
    · rw [if_pos hk] at h ⊢
      exact h
    · rw [if_neg hk] at h ⊢
      exact ih h

theorem lookupNtp_isSome_of_mem {m : List (ntp × ntp_state)}
    {e : ntp × ntp_state} (he : e ∈ m) :
    ∃ v, lookupNtp m e.1 = some v := by
  induction m with
  | nil => cases he
  | cons a rest ih =>
    rw [lookupNtp]
    by_cases hk : a.1 = e.1
    · exact ⟨a.2, if_pos hk⟩
    · rcases List.mem_cons.mp he with he | he
      · exact absurd (he ▸ rfl) hk
      · rw [if_neg hk]
        exact ih he

theorem keysInj_of_nodup {m : List (ntp × ntp_state)}
    (h : (m.map Prod.fst).Nodup) {e1 e2 : ntp × ntp_state}
    (h1 : e1 ∈ m) (h2 : e2 ∈ m) (hk : e1.1 = e2.1) : e1 = e2 := by
  induction m with
  | nil => cases h1
  | cons a rest ih =>
    rw [List.map_cons, List.nodup_cons] at h
    rcases List.mem_cons.mp h1 with h1 | h1 <;>
      rcases List.mem_cons.mp h2 with h2 | h2
    · rw [h1, h2]
    · exfalso
      exact h.1 (h1 ▸ hk ▸ List.mem_map_of_mem Prod.fst h2)
    · exfalso
      exact h.1 (h2 ▸ hk ▸ List.mem_map_of_mem Prod.fst h1)
    · exact ih h.2 h1 h2

theorem eraseNtp_sublist (m : List (ntp × ntp_state)) (k : ntp) :
    (eraseNtp m k).Sublist m := by
  induction m with
  | nil => exact List.Sublist.refl _
  | cons a rest ih =>
    rw [eraseNtp]
    by_cases hk : a.1 = k
    · rw [if_pos hk]
      exact ih.cons a
    · rw [if_neg hk]
      exact ih.cons₂ a

theorem map_fst_updateNtp (m : List (ntp × ntp_state)) (k : ntp)
    (v : ntp_state) : (updateNtp m k v).map Prod.fst = m.map Prod.fst := by
  induction m with
  | nil => rfl
  | cons a rest ih =>
    rw [updateNtp, List.map_cons, List.map_cons, ih]
    by_cases hk : a.1 = k
    · rw [if_pos hk, hk]
    · rw [if_neg hk]

theorem countP_field_le_one (f : ntp × ntp_state → Nat)
    {m : List (ntp × ntp_state)} (hnodup : (m.map Prod.fst).Nodup)
    (hinj : ∀ e1 ∈ m, ∀ e2 ∈ m, f e1 = f e2 → e1 = e2) (v : Nat) :
    m.countP (fun e => f e = v) ≤ 1 := by
  induction m with
  | nil => simp
  | cons a rest ih =>
    rw [List.map_cons, List.nodup_cons] at hnodup
    rw [List.countP_cons]
    by_cases hv : f a = v
    · have hz : rest.countP (fun e => f e = v) = 0 := by
        rw [List.countP_eq_zero]
        intro e he hev
        have hfe : f e = f a := by
          rw [hv, decide_eq_true_iff.mp hev]
        have : e = a := hinj e (List.mem_cons_of_mem a he) a
          (List.mem_cons_self a rest) hfe
        exact hnodup.1 (this ▸ List.mem_map_of_mem Prod.fst he)
      simp [hz, hv]
    · have := ih hnodup.2 (fun e1 h1 e2 h2 =>
        hinj e1 (List.mem_cons_of_mem a h1) e2 (List.mem_cons_of_mem a h2))
      simpa [hv] using this

/-! Count evaluation lemmas for the effect lists each operation emits. -/

theorem count_resolves_append (t1 t2 : List Effect) (p : Nat) :
    count_resolves (t1 ++ t2) p = count_resolves t1 p + count_resolves t2 p :=
  List.countP_append _ _ _

theorem count_registers_append (t1 t2 : List Effect) (s : Nat) :
    count_registers (t1 ++ t2) s =
      count_registers t1 s + count_registers t2 s :=
  List.countP_append _ _ _

theorem count_unregisters_append (t1 t2 : List Effect) (s : Nat) :
    count_unregisters (t1 ++ t2) s =
      count_unregisters t1 s + count_unregisters t2 s :=
  List.countP_append _ _ _

theorem counts_of_unmanage (s0 p0 : Nat) (ec : errc) :
    (∀ p, count_resolves
        [Effect.unregisterSub s0, Effect.resolvePromise p0 ec] p =
      if p0 = p then 1 else 0) ∧
    (∀ s, count_registers
        [Effect.unregisterSub s0, Effect.resolvePromise p0 ec] s = 0) ∧
    (∀ s, count_unregisters
        [Effect.unregisterSub s0, Effect.resolvePromise p0 ec] s =
      if s0 = s then 1 else 0) := by
  refine ⟨fun p => ?_, fun s => ?_, fun s => ?_⟩ <;>
    simp [count_resolves, count_registers, count_unregisters,
      List.countP_cons, is_resolve_of, is_register_of, is_unregister_of] <;>
    split_ifs <;> simp_all

/-- A list of effects that resolves no promise and registers or unregisters
no subscription (only spawned actions or gate closure). -/
def counts_zero (l : List Effect) : Prop :=
  (∀ p, count_resolves l p = 0) ∧ (∀ s, count_registers l s = 0) ∧
  (∀ s, count_unregisters l s = 0)

theorem counts_zero_nil : counts_zero [] :=
  ⟨fun _ => rfl, fun _ => rfl, fun _ => rfl⟩

theorem counts_zero_spawn (n : ntp) (mid : Nat) (s0 : state) :
    counts_zero [Effect.spawnAction n mid s0] := by
  refine ⟨fun p => ?_, fun s => ?_, fun s => ?_⟩ <;>
    simp [count_resolves, count_registers, count_unregisters,
      List.countP_cons, is_resolve_of, is_register_of, is_unregister_of]

theorem counts_zero_closeGate : counts_zero [Effect.closeGate] := by
  refine ⟨fun p => ?_, fun s => ?_, fun s => ?_⟩ <;>
    simp [count_resolves, count_registers, count_unregisters,
      List.countP_cons, is_resolve_of, is_register_of, is_unregister_of]

theorem counts_zero_ite (b : Prop) [Decidable b] {l1 l2 : List Effect}
    (h1 : counts_zero l1) (h2 : counts_zero l2) :
    counts_zero (if b then l1 else l2) := by
  split_ifs <;> assumption

theorem counts_resolve_cons {l : List Effect} (hz : counts_zero l)
    (p0 : Nat) (ec : errc) :
    (∀ p, count_resolves (Effect.resolvePromise p0 ec :: l) p =
      if p0 = p then 1 else 0) ∧
    (∀ s, count_registers (Effect.resolvePromise p0 ec :: l) s = 0) ∧
    (∀ s, count_unregisters (Effect.resolvePromise p0 ec :: l) s = 0) := by
  refine ⟨fun p => ?_, fun s => ?_, fun s => ?_⟩
  · rw [count_resolves, List.countP_cons, ← count_resolves, hz.1 p]
    simp [is_resolve_of]
  · rw [count_registers, List.countP_cons, ← count_registers, hz.2.1 s]
    simp [is_register_of]
  · rw [count_unregisters, List.countP_cons, ← count_unregisters, hz.2.2 s]
    simp [is_unregister_of]

theorem counts_register_cons {l : List Effect} (hz : counts_zero l)
    (n : ntp) (s0 : Nat) :
    (∀ p, count_resolves (Effect.registerSub n s0 :: l) p = 0) ∧
    (∀ s, count_registers (Effect.registerSub n s0 :: l) s =
      if s0 = s then 1 else 0) ∧
    (∀ s, count_unregisters (Effect.registerSub n s0 :: l) s = 0) := by
  refine ⟨fun p => ?_, fun s => ?_, fun s => ?_⟩
  · rw [count_resolves, List.countP_cons, ← count_resolves, hz.1 p]
    simp [is_resolve_of]
  · rw [count_registers, List.countP_cons, ← count_registers, hz.2.1 s]
    simp [is_register_of]
  · rw [count_unregisters, List.countP_cons, ← count_unregisters, hz.2.2 s]
    simp [is_unregister_of]

/-- Trace invariant tying a worker state to the effect trace that produced
it: managed entries have pairwise-distinct keys, promises and subscription
ids, all below the freshness counters; the trace touches no id at or above
the counters; every managed entry's promise is unresolved, its subscription
registered exactly once and never unregistered; and globally every promise
is resolved at most once and every subscription unregistered at most
once. -/
structure WInv (w : Worker) (tr : List Effect) : Prop where
  keysNodup : (w.managed_ntps.map Prod.fst).Nodup
  promInj : ∀ e1 ∈ w.managed_ntps, ∀ e2 ∈ w.managed_ntps,
    e1.2.promise = e2.2.promise → e1 = e2
  subInj : ∀ e1 ∈ w.managed_ntps, ∀ e2 ∈ w.managed_ntps,
    e1.2.leadership_subscription = e2.2.leadership_subscription → e1 = e2
  promBound : ∀ e ∈ w.managed_ntps, e.2.promise < w.next_promise
  subBound : ∀ e ∈ w.managed_ntps, e.2.leadership_subscription < w.next_sub
  trResolveBound : ∀ p, w.next_promise ≤ p → count_resolves tr p = 0
  trRegisterBound : ∀ s, w.next_sub ≤ s → count_registers tr s = 0
  trUnregisterBound : ∀ s, w.next_sub ≤ s → count_unregisters tr s = 0
  unres : ∀ e ∈ w.managed_ntps, count_resolves tr e.2.promise = 0
  regOnce : ∀ e ∈ w.managed_ntps,
    count_registers tr e.2.leadership_subscription = 1
  noUnreg : ∀ e ∈ w.managed_ntps,
    count_unregisters tr e.2.leadership_subscription = 0
  resolveAtMostOnce : ∀ p, count_resolves tr p ≤ 1
  unregisterAtMostOnce : ∀ s, count_unregisters tr s ≤ 1

theorem WInv_initial (self : Nat) : WInv (initial_worker self) [] := by
  refine ⟨?_, ?_, ?_, ?_, ?_, ?_, ?_, ?_, ?_, ?_, ?_, ?_, ?_⟩ <;>
    simp [initial_worker, count_resolves, count_registers, count_unregisters]

/-- Preservation of the invariant by `unmanage_ntp` (the erase branch shared
by `abort_partition_work`, `handle_operation_result` and `stop`'s loop
body). -/
theorem WInv_erase (w : Worker) (tr : List Effect) (n : ntp) (st : ntp_state)
    (ec : errc) (hw : WInv w tr) (h : lookupNtp w.managed_ntps n = some st) :
    WInv { w with managed_ntps := eraseNtp w.managed_ntps n }
      (tr ++ [Effect.unregisterSub st.leadership_subscription,
              Effect.resolvePromise st.promise ec]) := by
  obtain ⟨hres, hreg, hunr⟩ :=
    counts_of_unmanage st.leadership_subscription st.promise ec
  have hmem : (n, st) ∈ w.managed_ntps := lookupNtp_some_mem h
  refine ⟨?_, ?_, ?_, ?_, ?_, ?_, ?_, ?_, ?_, ?_, ?_, ?_, ?_⟩
  · exact List.Nodup.sublist ((eraseNtp_sublist _ _).map Prod.fst) hw.keysNodup
  · intro e1 h1 e2 h2 hp
    exact hw.promInj e1 (mem_eraseNtp.mp h1).1 e2 (mem_eraseNtp.mp h2).1 hp
  · intro e1 h1 e2 h2 hs
    exact hw.subInj e1 (mem_eraseNtp.mp h1).1 e2 (mem_eraseNtp.mp h2).1 hs
  · intro e he
    exact hw.promBound e (mem_eraseNtp.mp he).1
  · intro e he
    exact hw.subBound e (mem_eraseNtp.mp he).1
  · intro p hp
    have hne : st.promise ≠ p :=
      Nat.ne_of_lt (Nat.lt_of_lt_of_le (hw.promBound _ hmem) hp)
    rw [count_resolves_append, hw.trResolveBound p hp, hres p, if_neg hne]
  · intro s hs
    rw [count_registers_append, hw.trRegisterBound s hs, hreg s]
  · intro s hs
    have hne : st.leadership_subscription ≠ s :=
      Nat.ne_of_lt (Nat.lt_of_lt_of_le (hw.subBound _ hmem) hs)
    rw [count_unregisters_append, hw.trUnregisterBound s hs, hunr s,
      if_neg hne]
  · intro e he
    obtain ⟨hem, hne⟩ := mem_eraseNtp.mp he
    have hnp : st.promise ≠ e.2.promise := by
      intro hc
      have heq : (n, st) = e := hw.promInj (n, st) hmem e hem hc
      exact hne (by rw [← heq])
    rw [count_resolves_append, hw.unres e hem, hres, if_neg hnp]
  · intro e he
    obtain ⟨hem, _⟩ := mem_eraseNtp.mp he
    rw [count_registers_append, hw.regOnce e hem, hreg]
  · intro e he
    obtain ⟨hem, hne⟩ := mem_eraseNtp.mp he
    have hns : st.leadership_subscription ≠ e.2.leadership_subscription := by
      intro hc
      have heq : (n, st) = e := hw.subInj (n, st) hmem e hem hc
      exact hne (by rw [← heq])
    rw [count_unregisters_append, hw.noUnreg e hem, hunr, if_neg hns]
  · intro p
    rw [count_resolves_append, hres]
    by_cases hc : st.promise = p
    · rw [if_pos hc]
      have h0 : count_resolves tr p = 0 := hc ▸ hw.unres (n, st) hmem
      omega
    · rw [if_neg hc]
      have := hw.resolveAtMostOnce p
      omega
  · intro s
    rw [count_unregisters_append, hunr]
    by_cases hc : st.leadership_subscription = s
    · rw [if_pos hc]
      have h0 : count_unregisters tr s = 0 := hc ▸ hw.noUnreg (n, st) hmem
      omega
    · rw [if_neg hc]
      have := hw.unregisterAtMostOnce s
      omega

/-- Preservation of the invariant by an in-place update that keeps the
entry's promise and subscription, with effects touching no id (the retry
branch of `handle_operation_result` and both update branches of
`handle_leadership_update`). -/
theorem WInv_update_keep (w : Worker) (tr effs : List Effect) (n : ntp)
    (st v : ntp_state) (hw : WInv w tr)
    (h : lookupNtp w.managed_ntps n = some st)
    (hp : v.promise = st.promise)
    (hs : v.leadership_subscription = st.leadership_subscription)
    (hz : counts_zero effs) :
    WInv { w with managed_ntps := updateNtp w.managed_ntps n v }
      (tr ++ effs) := by
  have hmem : (n, st) ∈ w.managed_ntps := lookupNtp_some_mem h
  refine ⟨?_, ?_, ?_, ?_, ?_, ?_, ?_, ?_, ?_, ?_, ?_, ?_, ?_⟩
  · show ((updateNtp w.managed_ntps n v).map Prod.fst).Nodup
    rw [map_fst_updateNtp]
    exact hw.keysNodup
  · intro e1 h1 e2 h2 hpe
    rcases of_mem_updateNtp h1 with ⟨m1, ne1⟩ | rfl <;>
      rcases of_mem_updateNtp h2 with ⟨m2, ne2⟩ | rfl
    · exact hw.promInj e1 m1 e2 m2 hpe
    · exfalso
      have heq : e1 = (n, st) :=
        hw.promInj e1 m1 (n, st) hmem (hpe.trans hp)
      exact ne1 (by rw [heq])
    · exfalso
      have heq : e2 = (n, st) :=
        hw.promInj e2 m2 (n, st) hmem (hpe.symm.trans hp)
      exact ne2 (by rw [heq])
    · rfl
  · intro e1 h1 e2 h2 hse
    rcases of_mem_updateNtp h1 with ⟨m1, ne1⟩ | rfl <;>
      rcases of_mem_updateNtp h2 with ⟨m2, ne2⟩ | rfl
    · exact hw.subInj e1 m1 e2 m2 hse
    · exfalso
      have heq : e1 = (n, st) :=
        hw.subInj e1 m1 (n, st) hmem (hse.trans hs)
      exact ne1 (by rw [heq])
    · exfalso
      have heq : e2 = (n, st) :=
        hw.subInj e2 m2 (n, st) hmem (hse.symm.trans hs)
      exact ne2 (by rw [heq])
    · rfl
  · intro e he
    rcases of_mem_updateNtp he with ⟨hm, _⟩ | rfl
    · exact hw.promBound e hm
    · show v.promise < w.next_promise
      rw [hp]
      exact hw.promBound (n, st) hmem
  · intro e he
    rcases of_mem_updateNtp he with ⟨hm, _⟩ | rfl
    · exact hw.subBound e hm
    · show v.leadership_subscription < w.next_sub
      rw [hs]
      exact hw.subBound (n, st) hmem
  · intro p hbp
    rw [count_resolves_append, hw.trResolveBound p hbp, hz.1 p]
  · intro s hbs
    rw [count_registers_append, hw.trRegisterBound s hbs, hz.2.1 s]
  · intro s hbs
    rw [count_unregisters_append, hw.trUnregisterBound s hbs, hz.2.2 s]
  · intro e he
    rcases of_mem_updateNtp he with ⟨hm, _⟩ | rfl
    · rw [count_resolves_append, hw.unres e hm, hz.1]
    · show count_resolves (tr ++ effs) v.promise = 0
      rw [count_resolves_append, hz.1, hp, hw.unres (n, st) hmem]
  · intro e he
    rcases of_mem_updateNtp he with ⟨hm, _⟩ | rfl
    · rw [count_registers_append, hw.regOnce e hm, hz.2.1]
    · show count_registers (tr ++ effs) v.leadership_subscription = 1
      rw [count_registers_append, hz.2.1, hs, hw.regOnce (n, st) hmem]
  · intro e he
    rcases of_mem_updateNtp he with ⟨hm, _⟩ | rfl
    · rw [count_unregisters_append, hw.noUnreg e hm, hz.2.2]
    · show count_unregisters (tr ++ effs) v.leadership_subscription = 0
      rw [count_unregisters_append, hz.2.2, hs, hw.noUnreg (n, st) hmem]
  · intro p
    rw [count_resolves_append, hz.1]
    have := hw.resolveAtMostOnce p
    omega
  · intro s
    rw [count_unregisters_append, hz.2.2]
    have := hw.unregisterAtMostOnce s
    omega

theorem count_resolves_stop_effects (m : List (ntp × ntp_state)) (p : Nat) :
    count_resolves (stop_effects m) p =
      m.countP (fun e => e.2.promise = p) := by
  induction m with
  | nil => rfl
  | cons a rest ih =>
    rw [stop_effects, count_resolves_append, ih, List.countP_cons]
    have := (counts_of_unmanage a.2.leadership_subscription a.2.promise
      errc.shutting_down).1 p
    rw [unmanage_effects, this]
    split_ifs <;> simp_all

theorem count_registers_stop_effects (m : List (ntp × ntp_state)) (s : Nat) :
    count_registers (stop_effects m) s = 0 := by
  induction m with
  | nil => rfl
  | cons a rest ih =>
    rw [stop_effects, count_registers_append, ih]
    have := (counts_of_unmanage a.2.leadership_subscription a.2.promise
      errc.shutting_down).2.1 s
    rw [unmanage_effects, this]

theorem count_unregisters_stop_effects (m : List (ntp × ntp_state))
    (s : Nat) :
    count_unregisters (stop_effects m) s =
      m.countP (fun e => e.2.leadership_subscription = s) := by
  induction m with
  | nil => rfl
  | cons a rest ih =>
    rw [stop_effects, count_unregisters_append, ih, List.countP_cons]
    have := (counts_of_unmanage a.2.leadership_subscription a.2.promise
      errc.shutting_down).2.2 s
    rw [unmanage_effects, this]
    split_ifs <;> simp_all

/-- Preservation of the invariant by `stop`. -/
theorem WInv_stop (w : Worker) (tr : List Effect) (hw : WInv w tr) :
    WInv (stop w).1 (tr ++ (stop w).2) := by
  have hgz : counts_zero (if w.gate_closed then ([] : List Effect)
      else [Effect.closeGate]) :=
    counts_zero_ite _ counts_zero_nil counts_zero_closeGate
  refine ⟨?_, ?_, ?_, ?_, ?_, ?_, ?_, ?_, ?_, ?_, ?_, ?_, ?_⟩ <;>
    simp only [stop]
  · simp
  · intro e1 h1
    simp at h1
  · intro e1 h1
    simp at h1
  · intro e he
    simp at he
  · intro e he
    simp at he
  · intro p hp
    rw [count_resolves_append, hw.trResolveBound p hp,
      count_resolves_append, count_resolves_stop_effects, hgz.1]
    have hc : w.managed_ntps.countP (fun e => e.2.promise = p) = 0 := by
      rw [List.countP_eq_zero]
      intro e he hev
      have := hw.promBound e he
      have := decide_eq_true_iff.mp hev
      omega
    rw [hc]
  · intro s hs
    rw [count_registers_append, hw.trRegisterBound s hs,
      count_registers_append, count_registers_stop_effects, hgz.2.1]
  · intro s hs
    rw [count_unregisters_append, hw.trUnregisterBound s hs,
      count_unregisters_append, count_unregisters_stop_effects, hgz.2.2]
    have hc : w.managed_ntps.countP
        (fun e => e.2.leadership_subscription = s) = 0 := by
      rw [List.countP_eq_zero]
      intro e he hev
      have := hw.subBound e he
      have := decide_eq_true_iff.mp hev
      omega
    rw [hc]
  · intro e he
    simp at he
  · intro e he
    simp at he
  · intro e he
    simp at he
  · intro p
    rw [count_resolves_append, count_resolves_append,
      count_resolves_stop_effects, hgz.1]
    by_cases hpos : 0 < w.managed_ntps.countP (fun e => e.2.promise = p)
    · obtain ⟨e, he, hev⟩ := List.countP_pos.mp hpos
      have h0 : count_resolves tr p = 0 := by
        have := hw.unres e he
        rw [decide_eq_true_iff.mp hev] at this
        exact this
      have h1 : w.managed_ntps.countP (fun e => e.2.promise = p) ≤ 1 :=
        countP_field_le_one (fun e => e.2.promise) hw.keysNodup hw.promInj p
      omega
    · have := hw.resolveAtMostOnce p
      omega
  · intro s
    rw [count_unregisters_append, count_unregisters_append,
      count_unregisters_stop_effects, hgz.2.2]
    by_cases hpos : 0 < w.managed_ntps.countP
        (fun e => e.2.leadership_subscription = s)
    · obtain ⟨e, he, hev⟩ := List.countP_pos.mp hpos
      have h0 : count_unregisters tr s = 0 := by
        have := hw.noUnreg e he
        rw [decide_eq_true_iff.mp hev] at this
        exact this
      have h1 : w.managed_ntps.countP
          (fun e => e.2.leadership_subscription = s) ≤ 1 :=
        countP_field_le_one (fun e => e.2.leadership_subscription)
          hw.keysNodup hw.subInj s
      omega
    · have := hw.unregisterAtMostOnce s
      omega

/-- Preservation of the invariant by inserting a fresh entry (the
not-yet-managed branch of `perform_partition_work`): the new promise and
subscription ids are the counters, the effects register the new
subscription and touch no other id. -/
theorem WInv_insert_fresh (w : Worker) (tr l : List Effect) (n : ntp)
    (v : ntp_state) (hw : WInv w tr)
    (h : lookupNtp w.managed_ntps n = none)
    (hp : v.promise = w.next_promise)
    (hs : v.leadership_subscription = w.next_sub)
    (hz : counts_zero l) :
    WInv { w with
            managed_ntps := w.managed_ntps ++ [(n, v)],
            next_promise := w.next_promise + 1,
            next_sub := w.next_sub + 1 }
      (tr ++ (Effect.registerSub n w.next_sub :: l)) := by
  obtain ⟨hres, hreg, hunr⟩ := counts_register_cons hz n w.next_sub
  have hforall := lookupNtp_forall_of_none h
  have hmm : ∀ e : ntp × ntp_state, e ∈ w.managed_ntps ++ [(n, v)] →
      e ∈ w.managed_ntps ∨ e = (n, v) := by
    intro e he
    rcases List.mem_append.mp he with he | he
    · exact Or.inl he
    · exact Or.inr (List.mem_singleton.mp he)
  refine ⟨?_, ?_, ?_, ?_, ?_, ?_, ?_, ?_, ?_, ?_, ?_, ?_, ?_⟩
  · show ((w.managed_ntps ++ [(n, v)]).map Prod.fst).Nodup
    rw [List.map_append]
    refine List.nodup_append.mpr ⟨hw.keysNodup, List.nodup_singleton n, ?_⟩
    intro a ha hb
    rw [List.map_singleton, List.mem_singleton] at hb
    subst hb
    obtain ⟨e, he, hfe⟩ := List.mem_map.mp ha
    exact hforall e he hfe
  · intro e1 h1 e2 h2 hpe
    rcases hmm e1 h1 with m1 | rfl <;> rcases hmm e2 h2 with m2 | rfl
    · exact hw.promInj e1 m1 e2 m2 hpe
    · exfalso
      have hb := hw.promBound e1 m1
      have : e1.2.promise = w.next_promise := by rw [hpe]; exact hp
      omega
    · exfalso
      have hb := hw.promBound e2 m2
      have : e2.2.promise = w.next_promise := by rw [← hpe]; exact hp
      omega
    · rfl
  · intro e1 h1 e2 h2 hse
    rcases hmm e1 h1 with m1 | rfl <;> rcases hmm e2 h2 with m2 | rfl
    · exact hw.subInj e1 m1 e2 m2 hse
    · exfalso
      have hb := hw.subBound e1 m1
      have : e1.2.leadership_subscription = w.next_sub := by
        rw [hse]; exact hs
      omega
    · exfalso
      have hb := hw.subBound e2 m2
      have : e2.2.leadership_subscription = w.next_sub := by
        rw [← hse]; exact hs
      omega
    · rfl
  · intro e he
    show e.2.promise < w.next_promise + 1
    rcases hmm e he with hm | rfl
    · have := hw.promBound e hm
      omega
    · show v.promise < w.next_promise + 1
      omega
  · intro e he
    show e.2.leadership_subscription < w.next_sub + 1
    rcases hmm e he with hm | rfl
    · have := hw.subBound e hm
      omega
    · show v.leadership_subscription < w.next_sub + 1
      omega
  · intro p hbp
    have hbp2 : w.next_promise + 1 ≤ p := hbp
    have : w.next_promise ≤ p := by omega
    rw [count_resolves_append, hw.trResolveBound p this, hres]
  · intro s hbs
    have hbs2 : w.next_sub + 1 ≤ s := hbs
    have h1 : w.next_sub ≤ s := by omega
    have h2 : w.next_sub ≠ s := by omega
    rw [count_registers_append, hw.trRegisterBound s h1, hreg, if_neg h2]
  · intro s hbs
    have hbs2 : w.next_sub + 1 ≤ s := hbs
    have : w.next_sub ≤ s := by omega
    rw [count_unregisters_append, hw.trUnregisterBound s this, hunr]
  · intro e he
    rcases hmm e he with hm | rfl
    · rw [count_resolves_append, hw.unres e hm, hres]
    · show count_resolves (tr ++ (Effect.registerSub n w.next_sub :: l))
        v.promise = 0
      rw [count_resolves_append, hres, hp,
        hw.trResolveBound w.next_promise (Nat.le_refl _)]
  · intro e he
    rcases hmm e he with hm | rfl
    · have hb := hw.subBound e hm
      have hne : w.next_sub ≠ e.2.leadership_subscription := by omega
      rw [count_registers_append, hw.regOnce e hm, hreg, if_neg hne]
    · show count_registers (tr ++ (Effect.registerSub n w.next_sub :: l))
        v.leadership_subscription = 1
      rw [count_registers_append, hreg, hs,
        hw.trRegisterBound w.next_sub (Nat.le_refl _), if_pos rfl]
  · intro e he
    rcases hmm e he with hm | rfl
    · rw [count_unregisters_append, hw.noUnreg e hm, hunr]
    · show count_unregisters (tr ++ (Effect.registerSub n w.next_sub :: l))
        v.leadership_subscription = 0
      rw [count_unregisters_append, hunr, hs,
        hw.trUnregisterBound w.next_sub (Nat.le_refl _)]
  · intro p
    rw [count_resolves_append, hres]
    have := hw.resolveAtMostOnce p
    omega
  · intro s
    rw [count_unregisters_append, hunr]
    have := hw.unregisterAtMostOnce s
    omega

/-- Preservation of the invariant by replacing an entry's work (the
already-managed branch of `perform_partition_work`): the old promise is
resolved once, the new promise is the counter, the subscription is kept. -/
theorem WInv_replace_fresh (w : Worker) (tr l : List Effect) (n : ntp)
    (st v : ntp_state) (hw : WInv w tr)
    (h : lookupNtp w.managed_ntps n = some st)
    (hp : v.promise = w.next_promise)
    (hs : v.leadership_subscription = st.leadership_subscription)
    (hz : counts_zero l) :
    WInv { w with
            managed_ntps := updateNtp w.managed_ntps n v,
            next_promise := w.next_promise + 1 }
      (tr ++ (Effect.resolvePromise st.promise
        errc.invalid_data_migration_state :: l)) := by
  obtain ⟨hres, hreg, hunr⟩ :=
    counts_resolve_cons hz st.promise errc.invalid_data_migration_state
  have hmem : (n, st) ∈ w.managed_ntps := lookupNtp_some_mem h
  have hstp : st.promise < w.next_promise := hw.promBound (n, st) hmem
  refine ⟨?_, ?_, ?_, ?_, ?_, ?_, ?_, ?_, ?_, ?_, ?_, ?_, ?_⟩
  · show ((updateNtp w.managed_ntps n v).map Prod.fst).Nodup
    rw [map_fst_updateNtp]
    exact hw.keysNodup
  · intro e1 h1 e2 h2 hpe
    rcases of_mem_updateNtp h1 with ⟨m1, ne1⟩ | rfl <;>
      rcases of_mem_updateNtp h2 with ⟨m2, ne2⟩ | rfl
    · exact hw.promInj e1 m1 e2 m2 hpe
    · exfalso
      have hb := hw.promBound e1 m1
      have : e1.2.promise = w.next_promise := by rw [hpe]; exact hp
      omega
    · exfalso
      have hb := hw.promBound e2 m2
      have : e2.2.promise = w.next_promise := by rw [← hpe]; exact hp
      omega
    · rfl
  · intro e1 h1 e2 h2 hse
    rcases of_mem_updateNtp h1 with ⟨m1, ne1⟩ | rfl <;>
      rcases of_mem_updateNtp h2 with ⟨m2, ne2⟩ | rfl
    · exact hw.subInj e1 m1 e2 m2 hse
    · exfalso
      have heq : e1 = (n, st) :=
        hw.subInj e1 m1 (n, st) hmem (hse.trans hs)
      exact ne1 (by rw [heq])
    · exfalso
      have heq : e2 = (n, st) :=
        hw.subInj e2 m2 (n, st) hmem (hse.symm.trans hs)
      exact ne2 (by rw [heq])
    · rfl
  · intro e he
    show e.2.promise < w.next_promise + 1
    rcases of_mem_updateNtp he with ⟨hm, _⟩ | rfl
    · have := hw.promBound e hm
      omega
    · show v.promise < w.next_promise + 1
      omega
  · intro e he
    rcases of_mem_updateNtp he with ⟨hm, _⟩ | rfl
    · exact hw.subBound e hm
    · show v.leadership_subscription < w.next_sub
      rw [hs]
      exact hw.subBound (n, st) hmem
  · intro p hbp
    have hbp2 : w.next_promise + 1 ≤ p := hbp
    have h1 : w.next_promise ≤ p := by omega
    have h2 : st.promise ≠ p := by omega
    rw [count_resolves_append, hw.trResolveBound p h1, hres, if_neg h2]
  · intro s hbs
    rw [count_registers_append, hw.trRegisterBound s hbs, hreg]
  · intro s hbs
    rw [count_unregisters_append, hw.trUnregisterBound s hbs, hunr]
  · intro e he
    rcases of_mem_updateNtp he with ⟨hm, hne⟩ | rfl
    · have hnp : st.promise ≠ e.2.promise := by
        intro hc
        have heq : (n, st) = e := hw.promInj (n, st) hmem e hm hc
        exact hne (by rw [← heq])
      rw [count_resolves_append, hw.unres e hm, hres, if_neg hnp]
    · show count_resolves (tr ++ (Effect.resolvePromise st.promise
        errc.invalid_data_migration_state :: l)) v.promise = 0
      have hne : st.promise ≠ v.promise := by omega
      rw [count_resolves_append, hres, if_neg hne, hp,
        hw.trResolveBound w.next_promise (Nat.le_refl _)]
  · intro e he
    rcases of_mem_updateNtp he with ⟨hm, _⟩ | rfl
    · rw [count_registers_append, hw.regOnce e hm, hreg]
    · show count_registers (tr ++ (Effect.resolvePromise st.promise
        errc.invalid_data_migration_state :: l))
        v.leadership_subscription = 1
      rw [count_registers_append, hreg, hs, hw.regOnce (n, st) hmem]
  · intro e he
    rcases of_mem_updateNtp he with ⟨hm, _⟩ | rfl
    · rw [count_unregisters_append, hw.noUnreg e hm, hunr]
    · show count_unregisters (tr ++ (Effect.resolvePromise st.promise
        errc.invalid_data_migration_state :: l))
        v.leadership_subscription = 0
      rw [count_unregisters_append, hunr, hs, hw.noUnreg (n, st) hmem]
  · intro p
    rw [count_resolves_append, hres]
    by_cases hc : st.promise = p
    · rw [if_pos hc]
      have h0 : count_resolves tr p = 0 := hc ▸ hw.unres (n, st) hmem
      omega
    · rw [if_neg hc]
      have := hw.resolveAtMostOnce p
      omega
  · intro s
    rw [count_unregisters_append, hunr]
    have := hw.unregisterAtMostOnce s
    omega

theorem lookup_mem_ne_none {m : List (ntp × ntp_state)}
    {e : ntp × ntp_state} (he : e ∈ m) : lookupNtp m e.1 ≠ none := by
  obtain ⟨v, hv⟩ := lookupNtp_isSome_of_mem he
  simp [hv]

/-- Preservation of the invariant by `perform_partition_work`. -/
theorem WInv_perform (w : Worker) (tr : List Effect)
    (leaders : ntp → Option Nat) (n : ntp) (work : partition_work)
    (hw : WInv w tr) :
    WInv (perform_partition_work w leaders n work).1
      (tr ++ (perform_partition_work w leaders n work).2.1) := by
  cases hl : lookupNtp w.managed_ntps n with
  | none =>
    rw [perform_partition_work_new_eq w leaders n work hl]
    exact WInv_insert_fresh w tr _ n _ hw hl rfl rfl
      (counts_zero_ite _
        (counts_zero_spawn n work.migration_id work.sought_state)
        counts_zero_nil)
  | some st =>
    rw [perform_partition_work_existing_eq w leaders n work st hl]
    exact WInv_replace_fresh w tr _ n st _ hw hl rfl rfl
      (counts_zero_ite _
        (counts_zero_spawn n work.migration_id work.sought_state)
        counts_zero_nil)

/-- Preservation of the invariant by `abort_partition_work`. -/
theorem WInv_abort (w : Worker) (tr : List Effect) (n : ntp) (mid : Nat)
    (s : state) (hw : WInv w tr) :
    WInv (abort_partition_work w n mid s).1
      (tr ++ (abort_partition_work w n mid s).2) := by
  cases hl : lookupNtp w.managed_ntps n with
  | none =>
    simp only [abort_partition_work, hl]
    simpa using hw
  | some st =>
    by_cases hcond : st.work.migration_id = mid ∧ st.work.sought_state = s
    · have heq : abort_partition_work w n mid s =
          ({ w with managed_ntps := eraseNtp w.managed_ntps n },
           [Effect.unregisterSub st.leadership_subscription,
            Effect.resolvePromise st.promise
              errc.invalid_data_migration_state]) := by
        simp only [abort_partition_work, hl]
        rw [if_pos hcond]
        simp [unmanage_ntp, unmanage_effects]
      rw [heq]
      exact WInv_erase w tr n st _ hw hl
    · have heq : abort_partition_work w n mid s = (w, []) := by
        simp only [abort_partition_work, hl]
        rw [if_neg hcond]
      rw [heq]
      simpa using hw

/-- Preservation of the invariant by `handle_operation_result`. -/
theorem WInv_opResult (w : Worker) (tr : List Effect) (n : ntp) (mid : Nat)
    (s : state) (ec : errc) (hw : WInv w tr) :
    WInv (handle_operation_result w n mid s ec).1
      (tr ++ (handle_operation_result w n mid s ec).2) := by
  cases hl : lookupNtp w.managed_ntps n with
  | none =>
    simp only [handle_operation_result, hl]
    simpa using hw
  | some st =>
    by_cases hmis : st.work.migration_id ≠ mid ∨ st.work.sought_state ≠ s
    · have heq : handle_operation_result w n mid s ec = (w, []) := by
        simp only [handle_operation_result, hl]
        rw [if_pos hmis]
      rw [heq]
      simpa using hw
    · push_neg at hmis
      obtain ⟨h1, h2⟩ := hmis
      subst h1
      subst h2
      by_cases hec : ec ≠ errc.success ∧ ec ≠ errc.shutting_down
      · rw [handle_operation_result_retry_eq w n st ec hl hec]
        exact WInv_update_keep w tr _ n st _ hw hl rfl rfl
          (counts_zero_ite _
            (counts_zero_spawn n st.work.migration_id st.work.sought_state)
            counts_zero_nil)
      · have hor : ec = errc.success ∨ ec = errc.shutting_down := by
          rcases not_and_or.mp hec with hc | hc
          · exact Or.inl (not_not.mp hc)
          · exact Or.inr (not_not.mp hc)
        rw [handle_operation_result_terminal_eq w n st ec hl hor]
        exact WInv_erase w tr n st ec hw hl

/-- Preservation of the invariant by `handle_leadership_update`. -/
theorem WInv_leadership (w : Worker) (tr : List Effect) (n : ntp) (b : Bool)
    (hw : WInv w tr) :
    WInv (handle_leadership_update w n b).1
      (tr ++ (handle_leadership_update w n b).2) := by
  cases hl : lookupNtp w.managed_ntps n with
  | none =>
    simp only [handle_leadership_update, hl]
    simpa using hw
  | some st =>
    by_cases heq0 : st.is_leader = b
    · have heq : handle_leadership_update w n b = (w, []) := by
        simp [handle_leadership_update, hl, heq0]
      rw [heq]
      simpa using hw
    · cases hr : st.is_running
      · rw [handle_leadership_update_idle_eq w n st b hl heq0 hr]
        exact WInv_update_keep w tr _ n st _ hw hl rfl rfl
          (counts_zero_ite _
            (counts_zero_spawn n st.work.migration_id st.work.sought_state)
            counts_zero_nil)
      · rw [handle_leadership_update_running_eq w n st b hl heq0 hr]
        exact WInv_update_keep w tr _ n st _ hw hl rfl rfl counts_zero_nil

/-- Preservation of the invariant by any single event. -/
theorem WInv_step (w : Worker) (tr : List Effect) (op : Op)
    (hw : WInv w tr) : WInv (step w op).1 (tr ++ (step w op).2) := by
  cases op with
  | perform leaders n work => exact WInv_perform w tr leaders n work hw
  | abort n mid s => exact WInv_abort w tr n mid s hw
  | opResult n mid s ec => exact WInv_opResult w tr n mid s ec hw
  | leadership n b => exact WInv_leadership w tr n b hw
  | stop => exact WInv_stop w tr hw

/-- The invariant holds along any run. -/
theorem WInv_run (w : Worker) (tr : List Effect) (hw : WInv w tr)
    (ops : List Op) : WInv (run w ops).1 (tr ++ (run w ops).2) := by
  induction ops generalizing w tr with
  | nil => simpa [run] using hw
  | cons op ops ih =>
    have hstep := WInv_step w tr op hw
    have hrest := ih (step w op).1 (tr ++ (step w op).2) hstep
    simp only [run]
    rw [← List.append_assoc]
    exact hrest

theorem lookup_append_ne_none {m l : List (ntp × ntp_state)}
    {e : ntp × ntp_state} (he : e ∈ m) : lookupNtp (m ++ l) e.1 ≠ none := by
  obtain ⟨v, hv⟩ := lookupNtp_isSome_of_mem he
  simp [lookupNtp_append_some hv]

theorem lookup_updateNtp_ne_none {m : List (ntp × ntp_state)} {k : ntp}
    {v : ntp_state} {e : ntp × ntp_state} (he : e ∈ m) :
    lookupNtp (updateNtp m k v) e.1 ≠ none := by
  by_cases hek : e.1 = k
  · obtain ⟨u, hu⟩ := lookupNtp_isSome_of_mem he
    rw [hek] at hu ⊢
    rw [lookupNtp_updateNtp_self hu v]
    simp
  · rw [lookupNtp_updateNtp_ne hek]
    exact lookup_mem_ne_none he

/-- A step that removes a managed key emits exactly one resolution of that
entry's promise and exactly one unregistration of its subscription: removal
only happens through `unmanage_ntp`. -/
theorem step_removed_counts (w : Worker) (tr : List Effect) (op : Op)
    (e : ntp × ntp_state) (hw : WInv w tr) (he : e ∈ w.managed_ntps)
    (hgone : lookupNtp (step w op).1.managed_ntps e.1 = none) :
    count_resolves (step w op).2 e.2.promise = 1 ∧
    count_unregisters (step w op).2 e.2.leadership_subscription = 1 := by
  cases op with
  | perform leaders n work =>
    exfalso
    have hg : lookupNtp
        (perform_partition_work w leaders n work).1.managed_ntps e.1 =
        none := hgone
    cases hl : lookupNtp w.managed_ntps n with
    | none =>
      rw [perform_partition_work_new_eq w leaders n work hl] at hg
      exact lookup_append_ne_none he hg
    | some st =>
      rw [perform_partition_work_existing_eq w leaders n work st hl] at hg
      exact lookup_updateNtp_ne_none he hg
  | abort n mid s =>
    have hg : lookupNtp (abort_partition_work w n mid s).1.managed_ntps
        e.1 = none := hgone
    show count_resolves (abort_partition_work w n mid s).2 e.2.promise = 1 ∧
      count_unregisters (abort_partition_work w n mid s).2
        e.2.leadership_subscription = 1
    cases hl : lookupNtp w.managed_ntps n with
    | none =>
      exfalso
      have heq : abort_partition_work w n mid s = (w, []) := by
        simp [abort_partition_work, hl]
      rw [heq] at hg
      exact lookup_mem_ne_none he hg
    | some st =>
      by_cases hcond : st.work.migration_id = mid ∧ st.work.sought_state = s
      · have heq : abort_partition_work w n mid s =
            ({ w with managed_ntps := eraseNtp w.managed_ntps n },
             [Effect.unregisterSub st.leadership_subscription,
              Effect.resolvePromise st.promise
                errc.invalid_data_migration_state]) := by
          simp only [abort_partition_work, hl]
          rw [if_pos hcond]
          simp [unmanage_ntp, unmanage_effects]
        rw [heq] at hg ⊢
        by_cases hek : e.1 = n
        · have hee : e = (n, st) :=
            keysInj_of_nodup hw.keysNodup he (lookupNtp_some_mem hl) hek
          rw [hee]
          obtain ⟨hres, _, hunr⟩ := counts_of_unmanage
            st.leadership_subscription st.promise
            errc.invalid_data_migration_state
          exact ⟨by rw [hres, if_pos rfl], by rw [hunr, if_pos rfl]⟩
        · exfalso
          have hg2 : lookupNtp (eraseNtp w.managed_ntps n) e.1 = none := hg
          rw [lookupNtp_eraseNtp_ne hek] at hg2
          exact lookup_mem_ne_none he hg2
      · exfalso
        have heq : abort_partition_work w n mid s = (w, []) := by
          simp only [abort_partition_work, hl]
          rw [if_neg hcond]
        rw [heq] at hg
        exact lookup_mem_ne_none he hg
  | opResult n mid s ec =>
    have hg : lookupNtp
        (handle_operation_result w n mid s ec).1.managed_ntps e.1 =
        none := hgone
    show count_resolves (handle_operation_result w n mid s ec).2
        e.2.promise = 1 ∧
      count_unregisters (handle_operation_result w n mid s ec).2
        e.2.leadership_subscription = 1
    cases hl : lookupNtp w.managed_ntps n with
    | none =>
      exfalso
      have heq : handle_operation_result w n mid s ec = (w, []) := by
        simp [handle_operation_result, hl]
      rw [heq] at hg
      exact lookup_mem_ne_none he hg
    | some st =>
      by_cases hmis : st.work.migration_id ≠ mid ∨ st.work.sought_state ≠ s
      · exfalso
        have heq : handle_operation_result w n mid s ec = (w, []) := by
          simp only [handle_operation_result, hl]
          rw [if_pos hmis]
        rw [heq] at hg
        exact lookup_mem_ne_none he hg
      · push_neg at hmis
        obtain ⟨h1, h2⟩ := hmis
        subst h1
        subst h2
        by_cases hec : ec ≠ errc.success ∧ ec ≠ errc.shutting_down
        · exfalso
          rw [handle_operation_result_retry_eq w n st ec hl hec] at hg
          exact lookup_updateNtp_ne_none he hg
        · have hor : ec = errc.success ∨ ec = errc.shutting_down := by
            rcases not_and_or.mp hec with hc | hc
            · exact Or.inl (not_not.mp hc)
            · exact Or.inr (not_not.mp hc)
          rw [handle_operation_result_terminal_eq w n st ec hl hor] at hg ⊢
          by_cases hek : e.1 = n
          · have hee : e = (n, st) :=
              keysInj_of_nodup hw.keysNodup he (lookupNtp_some_mem hl) hek
            rw [hee]
            obtain ⟨hres, _, hunr⟩ := counts_of_unmanage
              st.leadership_subscription st.promise ec
            exact ⟨by rw [hres, if_pos rfl], by rw [hunr, if_pos rfl]⟩
          · exfalso
            have hg2 : lookupNtp (eraseNtp w.managed_ntps n) e.1 = none := hg
            rw [lookupNtp_eraseNtp_ne hek] at hg2
            exact lookup_mem_ne_none he hg2
  | leadership n b =>
    exfalso
    have hg : lookupNtp
        (handle_leadership_update w n b).1.managed_ntps e.1 = none := hgone
    cases hl : lookupNtp w.managed_ntps n with
    | none =>
      have heq : handle_leadership_update w n b = (w, []) := by
        simp [handle_leadership_update, hl]
      rw [heq] at hg
      exact lookup_mem_ne_none he hg
    | some st =>
      by_cases heq0 : st.is_leader = b
      · have heq : handle_leadership_update w n b = (w, []) := by
          simp [handle_leadership_update, hl, heq0]
        rw [heq] at hg
        exact lookup_mem_ne_none he hg
      · cases hr : st.is_running
        · rw [handle_leadership_update_idle_eq w n st b hl heq0 hr] at hg
          exact lookup_updateNtp_ne_none he hg
        · rw [handle_leadership_update_running_eq w n st b hl heq0 hr] at hg
          exact lookup_updateNtp_ne_none he hg
  | stop =>
    have hgz : counts_zero (if w.gate_closed then ([] : List Effect)
        else [Effect.closeGate]) :=
      counts_zero_ite _ counts_zero_nil counts_zero_closeGate
    constructor
    · show count_resolves (stop_effects w.managed_ntps ++
        (if w.gate_closed then ([] : List Effect)
          else [Effect.closeGate])) e.2.promise = 1
      rw [count_resolves_append, count_resolves_stop_effects, hgz.1]
      have hle : w.managed_ntps.countP
          (fun x => x.2.promise = e.2.promise) ≤ 1 :=
        countP_field_le_one (fun x => x.2.promise) hw.keysNodup hw.promInj _
      have hpos : 0 < w.managed_ntps.countP
          (fun x => x.2.promise = e.2.promise) :=
        List.countP_pos_iff.mpr ⟨e, he, by simp⟩
      omega
    · show count_unregisters (stop_effects w.managed_ntps ++
        (if w.gate_closed then ([] : List Effect)
          else [Effect.closeGate])) e.2.leadership_subscription = 1
      rw [count_unregisters_append, count_unregisters_stop_effects,
        hgz.2.2]
      have hle : w.managed_ntps.countP
          (fun x => x.2.leadership_subscription =
            e.2.leadership_subscription) ≤ 1 :=
        countP_field_le_one (fun x => x.2.leadership_subscription)
          hw.keysNodup hw.subInj _
      have hpos : 0 < w.managed_ntps.countP
          (fun x => x.2.leadership_subscription =
            e.2.leadership_subscription) :=
        List.countP_pos_iff.mpr ⟨e, he, by simp⟩
      omega

/-- C10: along any sequence of worker events from a fresh worker, every
managed entry holds an unresolved promise and a subscription that was
registered exactly once and never unregistered; globally no promise is
resolved twice and no subscription unregistered twice; and any next event
that removes a managed key goes through `unmanage_ntp`: its effects resolve
that entry's promise exactly once and unregister its subscription exactly
once before the entry is erased. -/
theorem unmanage_invariant_spec (self : Nat) (ops : List Op) :
    (∀ e ∈ (run (initial_worker self) ops).1.managed_ntps,
      count_resolves (run (initial_worker self) ops).2 e.2.promise = 0 ∧
      count_registers (run (initial_worker self) ops).2
        e.2.leadership_subscription = 1 ∧
      count_unregisters (run (initial_worker self) ops).2
        e.2.leadership_subscription = 0) ∧
    (∀ p, count_resolves (run (initial_worker self) ops).2 p ≤ 1) ∧
    (∀ s, count_unregisters (run (initial_worker self) ops).2 s ≤ 1) ∧
    (∀ op, ∀ e ∈ (run (initial_worker self) ops).1.managed_ntps,
      lookupNtp (step (run (initial_worker self) ops).1 op).1.managed_ntps
        e.1 = none →
      count_resolves (step (run (initial_worker self) ops).1 op).2
        e.2.promise = 1 ∧
      count_unregisters (step (run (initial_worker self) ops).1 op).2
        e.2.leadership_subscription = 1) := by
  have hrun := WInv_run (initial_worker self) [] (WInv_initial self) ops
  rw [List.nil_append] at hrun
  refine ⟨?_, ?_, ?_, ?_⟩
  · intro e he
    exact ⟨hrun.unres e he, hrun.regOnce e he, hrun.noUnreg e he⟩
  · exact hrun.resolveAtMostOnce
  · exact hrun.unregisterAtMostOnce
  · intro op e he hgone
    exact step_removed_counts _ _ op e hrun he hgone

end DataMigrations
